import Mathlib

/-
  Shallow embedding of the easylb hostname-based load balancer (Go) and
  verification of its specification claims.

  Modelling conventions:
  - Go strings are modelled as lists of characters (`Str`); Go string
    operations (prefix/suffix tests, character counting, index search)
    become the corresponding list operations.
  - Go maps are modelled as association lists built with last-write-wins
    insertion, or, for the metrics store, as total functions returning the
    Go zero value for absent keys (which is observationally identical to a
    Go map read).
  - Go `float64` latency samples and quantile arguments are modelled as
    exact rationals; index computations such as `int(float64(n-1) * p)`
    are performed exactly on the rational's numerator and denominator with
    Go's truncation-toward-zero conversion (`Int.tdiv`).  The concrete
    inputs used in witnesses and counterexamples are dyadic values on
    which IEEE-754 double arithmetic is exact, so every concrete
    evaluation below agrees with the Go program.
  - The `uint64` round-robin cursor is a natural number reduced mod 2^64;
    Go's `int(...)` conversion on a 64 bit platform is `wrapInt64`, and
    Go's `%` on int is `Int.tmod` (truncated remainder).  A slice access
    with a negative index is a Go runtime panic, modelled by the explicit
    `ScanOutcome.outOfRange` outcome.
-/

set_option maxRecDepth 2048

namespace EasyLB

/-- Go strings, modelled as lists of characters. -/
abbrev Str := List Char

/-- Go map read `tags[k]` on a `map[string]string`: the zero value `""`
is returned for a missing key. -/
def tagsGet (tags : List (Str × Str)) (k : Str) : Str :=
  (tags.lookup k).getD []

/-- Go map store `m[k] = v` on an association list: last write wins and
keys stay unique. -/
def mapInsert {α : Type} (k : Str) (v : α) (l : List (Str × α)) : List (Str × α) :=
  (l.filter (fun p => !(p.1 == k))) ++ [(k, v)]

/-- Go set insert (map to empty struct) on a list of keys. -/
def setInsert (k : Str) (s : List Str) : List Str :=
  if k ∈ s then s else s ++ [k]

/-! ## internal/lb/route.go -/

/-- Backend represents a single backend server (route.go). -/
structure Backend where
  address : Str
  healthy : Bool
deriving DecidableEq

/-- Route represents a routing rule (route.go).  `next` is the `uint64`
round-robin counter, kept reduced modulo 2^64. -/
structure Route where
  pattern : Str
  backends : List Backend
  next : Nat
deriving DecidableEq

/-- The route table's `routes map[string]*Route`, as an association list
keyed by pattern. -/
abbrev RouteTable := List (Str × Route)

/-- matchWildcard (route.go): `pattern` must start with `*.`; the suffix
`pattern[1:]` must end the host and the `.` counts must agree. -/
def matchWildcard (pattern host : Str) : Bool :=
  if ['*', '.'] <+: pattern then
    let suffix := pattern.drop 1
    decide (suffix <:+ host) && (host.count '.' == suffix.count '.')
  else
    false

/-- The port-stripping step of Match (route.go): drop everything from the
last `:` on, when a `:` is present (`strings.LastIndex`). -/
def stripPort (host : Str) : Str :=
  if ':' ∈ host then
    (host.reverse.drop (host.reverse.indexOf ':' + 1)).reverse
  else
    host

/-- RouteTable.Match (route.go): strip an optional port, try the exact
map lookup, then scan the table for a wildcard pattern matching the
host.  (Go ranges over the map in unspecified order; at most one wildcard
pattern can match a host — `wildcardPattern_unique` below — so the scan
order is immaterial.) -/
def matchRoute (routes : RouteTable) (host : Str) : Option Route :=
  let h := stripPort host
  match routes.lookup h with
  | some route => some route
  | none => (routes.find? (fun pr => matchWildcard pr.1 h)).map (fun pr => pr.2)

/-- Go `int(u)` for a `uint64` value on a 64-bit platform, and the
wrap-around of signed 64-bit addition. -/
def wrapInt64 (x : Int) : Int :=
  (x + 2 ^ 63) % 2 ^ 64 - 2 ^ 63

/-- The index `(int(start) + i) % n` computed by GetHealthyBackend
(route.go line 77): signed 64-bit addition followed by Go's truncated
remainder. -/
def stepIdx (start : Int) (i : Nat) (n : Nat) : Int :=
  Int.tmod (wrapInt64 (start + i)) n

/-- Outcome of one GetHealthyBackend call: a healthy backend was found, a
nil pointer was returned, or the slice access panicked (negative index). -/
inductive ScanOutcome where
  | found : Backend → ScanOutcome
  | noneHealthy : ScanOutcome
  | outOfRange : ScanOutcome
deriving DecidableEq

/-- The scan loop of GetHealthyBackend (route.go lines 76-81): up to
`fuel` steps starting at offset `i`, returning the first healthy backend;
`r.Backends[idx]` with an index outside `[0, n)` is a runtime panic. -/
def scanBackends (bs : List Backend) (start : Int) : Nat → Nat → ScanOutcome
  | _, 0 => .noneHealthy
  | i, fuel + 1 =>
    let idx := stepIdx start i bs.length
    if h : 0 ≤ idx ∧ idx.toNat < bs.length then
      let b := bs.get ⟨idx.toNat, h.2⟩
      if b.healthy then .found b else scanBackends bs start (i + 1) fuel
    else
      .outOfRange

/-- Route.GetHealthyBackend (route.go): atomically increment the cursor,
then scan `len(backends)` slots starting from the new cursor value. -/
def getHealthyBackend (r : Route) : ScanOutcome × Route :=
  if r.backends.length = 0 then
    (.noneHealthy, r)
  else
    (scanBackends r.backends (wrapInt64 (((r.next + 1) % 2 ^ 64 : Nat) : Int)) 0
       r.backends.length,
     { r with next := (r.next + 1) % 2 ^ 64 })

/-- A sequence of successive sequential GetHealthyBackend calls on one
route, collecting the outcomes. -/
def callsRR (r : Route) : Nat → List ScanOutcome × Route
  | 0 => ([], r)
  | m + 1 =>
    let (res, r1) := getHealthyBackend r
    let (rest, r2) := callsRR r1 m
    (res :: rest, r2)

/-! ## internal/metrics (the cached version embedded in src/README.md) -/

/-- Insert a value into a sorted list (ascending). -/
def insertSorted (x : ℚ) : List ℚ → List ℚ
  | [] => [x]
  | y :: ys => if x ≤ y then x :: y :: ys else y :: insertSorted x ys

/-- `sort.Float64s`: sort ascending.  (Insertion sort; the Go standard
sort computes the same ascending reordering.) -/
def sortFloats (l : List ℚ) : List ℚ := l.foldr insertSorted []

/-- The metrics store.  The three nested Go maps are modelled as total
functions returning the zero value (0, nil slice, no cache entry) for
absent keys, which is exactly what a Go map read yields. -/
structure Metrics where
  requests : Str → Str → Int → Int
  latencySamples : Str → Str → List ℚ
  sortedCache : Str → Str → Option (List ℚ)
  maxSamples : Nat

/-- metrics.New(): empty store, window of 10000 samples. -/
def Metrics.new : Metrics :=
  { requests := fun _ _ _ => 0
    latencySamples := fun _ _ => []
    sortedCache := fun _ _ => none
    maxSamples := 10000 }

/-- Metrics.RecordRequest: bump the counter, append the duration to the
rolling sample window (evicting the oldest when over `maxSamples`), and
delete the sorted-cache entry for this (domain, backend). -/
def Metrics.recordRequest (m : Metrics) (domain backend : Str) (statusCode : Int)
    (duration : ℚ) : Metrics :=
  let samples0 := m.latencySamples domain backend ++ [duration]
  let samples :=
    if samples0.length > m.maxSamples then samples0.drop (samples0.length - m.maxSamples)
    else samples0
  { requests := fun d b c =>
      if d = domain ∧ b = backend ∧ c = statusCode then m.requests d b c + 1
      else m.requests d b c
    latencySamples := fun d b =>
      if d = domain ∧ b = backend then samples else m.latencySamples d b
    sortedCache := fun d b =>
      if d = domain ∧ b = backend then none else m.sortedCache d b
    maxSamples := m.maxSamples }

/-- The quantile index `idx := int(float64(n-1) * p)` with the two clamps
(README metrics, lines 157-164; the uncached `Percentile` of
src/unnamed/part_001 lines 99-106 computes the identical index): Go's
float-to-int conversion truncates toward zero, which on the exact
rational product is `Int.tdiv` of `(n-1) * p.num` by `p.den`. -/
def quantIdx (n : Nat) (p : ℚ) : Nat :=
  let idx : Int := Int.tdiv ((n - 1 : Int) * p.num) (p.den : Int)
  let idx := if idx < 0 then 0 else idx
  let idx := if (n : Int) ≤ idx then (n : Int) - 1 else idx
  idx.toNat

/-- `sorted[idx]` for a requested quantile. -/
def quantAt (sorted : List ℚ) (p : ℚ) : ℚ :=
  sorted.getD (quantIdx sorted.length p) 0

/-- The exclusive (write-locked) path of Metrics.Percentiles: re-read the
samples, double-check the cache, copy+sort and store on a true miss, then
compute every requested quantile from the sorted snapshot. -/
def Metrics.percentilesSlow (m : Metrics) (domain backend : Str) (ps : List ℚ) :
    List ℚ × Metrics :=
  let samples := m.latencySamples domain backend
  if samples.length = 0 then
    (ps.map (fun _ => 0), m)
  else
    let sortedAndStore : List ℚ × Metrics :=
      match m.sortedCache domain backend with
      | some s =>
        if s.length = samples.length then (s, m)
        else
          let ns := sortFloats samples
          (ns, { m with sortedCache := fun d b =>
                  if d = domain ∧ b = backend then some ns else m.sortedCache d b })
      | none =>
        let ns := sortFloats samples
        (ns, { m with sortedCache := fun d b =>
                if d = domain ∧ b = backend then some ns else m.sortedCache d b })
    (ps.map (quantAt sortedAndStore.1), sortedAndStore.2)

/-- Metrics.Percentiles (README metrics, lines 140-207): zero for every
quantile when there are no samples; the cached sorted snapshot when its
length matches the live sample count; otherwise the slow path. -/
def Metrics.percentiles (m : Metrics) (domain backend : Str) (ps : List ℚ) :
    List ℚ × Metrics :=
  let samples := m.latencySamples domain backend
  if samples.length = 0 then
    (ps.map (fun _ => 0), m)
  else
    match m.sortedCache domain backend with
    | some sorted =>
      if sorted.length = samples.length then (ps.map (quantAt sorted), m)
      else m.percentilesSlow domain backend ps
    | none => m.percentilesSlow domain backend ps

/-- Metrics.Percentile (README metrics, lines 131-135): `Percentiles`
with a single quantile, returning `results[0]`. -/
def Metrics.percentile (m : Metrics) (domain backend : Str) (p : ℚ) : ℚ × Metrics :=
  let (results, m') := m.percentiles domain backend [p]
  (results.getD 0 0, m')

/-- Metrics.SampleCount: length of the live sample slice. -/
def Metrics.sampleCount (m : Metrics) (domain backend : Str) : Nat :=
  (m.latencySamples domain backend).length

/-- Quantile reads computed directly from a fresh copy+sort of the live
samples, ignoring the sorted cache entirely.  This is the reference
reading of the spec's description of `Percentiles` (spec section 4.4),
used to state the cache-transparency refinement claim. -/
def Metrics.percentilesFromLive (m : Metrics) (domain backend : Str) (ps : List ℚ) :
    List ℚ :=
  let samples := m.latencySamples domain backend
  if samples.length = 0 then ps.map (fun _ => 0)
  else ps.map (quantAt (sortFloats samples))

/-- The last `n` elements of a list (the retained rolling window). -/
def lastN {α : Type} (n : Nat) (l : List α) : List α :=
  l.drop (l.length - n)

/-- A RecordRequest event: domain, backend, status code, duration. -/
abbrev RecEvent := Str × Str × Int × ℚ

/-- Apply a sequence of RecordRequest calls in order. -/
def applyRecords (m : Metrics) (evs : List RecEvent) : Metrics :=
  evs.foldl (fun acc e => acc.recordRequest e.1 e.2.1 e.2.2.1 e.2.2.2) m

/-- The durations recorded for one (domain, backend) pair, in order. -/
def recordedFor (evs : List RecEvent) (d b : Str) : List ℚ :=
  evs.filterMap (fun e => if d = e.1 ∧ b = e.2.1 then some e.2.2.2 else none)

/-- Cache coherence: every sorted-cache entry is either absent or is the
sort of the current live samples for its pair. -/
def Metrics.coherent (m : Metrics) : Prop :=
  ∀ d b, m.sortedCache d b = none ∨
    m.sortedCache d b = some (sortFloats (m.latencySamples d b))

/-- The metrics store states the program can actually be in: everything
produced from `Metrics.new` by RecordRequest and Percentiles calls
(Percentile goes through Percentiles). -/
inductive Metrics.Reachable : Metrics → Prop
  | new : Metrics.Reachable Metrics.new
  | record (d b : Str) (c : Int) (t : ℚ) {m : Metrics} :
      Metrics.Reachable m → Metrics.Reachable (m.recordRequest d b c t)
  | scrape (d b : Str) (ps : List ℚ) {m : Metrics} :
      Metrics.Reachable m → Metrics.Reachable (m.percentiles d b ps).2

/-! ## The discovery watcher (src/unnamed/part_005) -/

/-- Task represents an easyrun task. -/
structure Task where
  id : Str
  jobName : Str
  state : Str
  ports : List (Str × Int)
deriving DecidableEq

/-- Job represents an easyrun job. -/
structure Job where
  id : Str
  name : Str
  tags : List (Str × Str)
deriving DecidableEq

/-- Agent represents an easyrun agent. -/
structure Agent where
  id : Str
  endpoint : Str
deriving DecidableEq

/-- The decoded body of the per-job status fetch. -/
structure JobStatus where
  agents : List Agent
  tasksByAgent : List (Str × List Task)
deriving DecidableEq

/-- Why a fetch failed: transport error, non-200 status, or JSON decode
failure.  All three take the same code path in the watcher. -/
inductive FetchErr where
  | network
  | badStatus
  | decodeFailure
deriving DecidableEq

/-- The watcher's environment: the orchestrator's responses to the three
fetches, plus the `net/url` hostname extraction (`extractHost`), which is
standard-library behaviour abstracted as an oracle returning `""` ([])
when parsing fails.  Responses are modelled as fixed per-endpoint values
(a deterministic server); no claim below depends on responses varying
between calls within one sync. -/
structure Env where
  agents : Except FetchErr (List Agent)
  jobs : Except FetchErr (List Job)
  jobStatus : Str → Except FetchErr JobStatus
  hostOf : Str → Str

/-- The watcher state: the tag filter, the four cache maps, and the route
table contents it publishes (`routeTable.Update` replaces the table
wholesale, so the table is just the last published mapping). -/
structure WState where
  tagFilter : Str
  agentHosts : List (Str × Str)
  jobs : List (Str × Job)
  relevant : List Str
  tasks : List (Str × List (Str × List Task))
  routes : RouteTable
deriving DecidableEq

/-- The key of the URL-prefix tag. -/
def urlTagKey : Str := ("easylb-urlprefix").toList

/-- The key of the named-port tag. -/
def portTagKey : Str := ("easylb-port").toList

/-- The task state that contributes backends. -/
def runningState : Str := ("running").toList

/-- parseTagFilter (part_005): split `key:value` at the first colon;
without a colon the value is empty. -/
def splitAtColon : Str → Str × Str
  | [] => ([], [])
  | c :: rest =>
    if c = ':' then ([], rest)
    else
      let kv := splitAtColon rest
      (c :: kv.1, kv.2)

/-- jobMatchesFilter (part_005): an empty filter matches every job,
otherwise the job's tag at the filter key must equal the filter value. -/
def jobMatchesFilter (tagFilter : Str) (job : Job) : Bool :=
  if tagFilter = [] then true
  else
    let kv := splitAtColon tagFilter
    tagsGet job.tags kv.1 == kv.2

/-- jobHasURLPrefix (part_005): the job carries a non-empty
`easylb-urlprefix` tag. -/
def jobHasURLPrefixTag (job : Job) : Bool :=
  !(tagsGet job.tags urlTagKey == [])

/-- taskPort (part_005): the named port from the job's port tag when
present, else the first available port, else 0. -/
def firstPortVal : List (Str × Int) → Int
  | [] => 0
  | (_, p) :: _ => p

/-- taskPort (part_005). -/
def taskPort (task : Task) (portName : Str) : Int :=
  match (if portName = [] then none else task.ports.lookup portName) with
  | some p => p
  | none => firstPortVal task.ports

/-- strconv.Itoa. -/
def intDigits (p : Int) : Str :=
  if p < 0 then '-' :: Nat.toDigits 10 p.natAbs else Nat.toDigits 10 p.natAbs

/-- The backend built by buildRoutes: `host + ":" + strconv.Itoa(port)`,
healthy (health is orchestrator-reported; the watcher always publishes
healthy=true). -/
def backendFor (host : Str) (port : Int) : Backend :=
  { address := host ++ ':' :: intDigits port, healthy := true }

/-- The (pattern, backend) pairs emitted by buildRoutes (part_005 lines
247-289) in iteration order: for each relevant job with a non-empty
URL-prefix tag, for each cached agent with a known hostname, for each
task in `running` state with a resolvable non-zero port. -/
def emitBackends (w : WState) : List (Str × Backend) :=
  w.relevant.flatMap (fun jobName =>
    match w.jobs.lookup jobName with
    | none => []
    | some job =>
      if tagsGet job.tags urlTagKey = [] then []
      else
        ((w.tasks.lookup jobName).getD []).flatMap (fun entry =>
          if (w.agentHosts.lookup entry.1).getD [] = [] then []
          else
            entry.2.flatMap (fun task =>
              if task.state ≠ runningState then []
              else
                if taskPort task (tagsGet job.tags portTagKey) = 0 then []
                else [(tagsGet job.tags urlTagKey,
                       backendFor ((w.agentHosts.lookup entry.1).getD [])
                         (taskPort task (tagsGet job.tags portTagKey)))])))

/-- buildRoutes (part_005): group the emitted backends by pattern.  The
Go loop inserts each pattern on first emission and appends subsequent
backends, which yields exactly this mapping. -/
def buildRoutes (w : WState) : RouteTable :=
  let pairs := emitBackends w
  (pairs.map Prod.fst).dedup.map (fun p =>
    (p, { pattern := p
          backends := pairs.filterMap (fun q => if q.1 = p then some q.2 else none)
          next := 0 }))

/-- The tail of buildRoutes: publish the new table via
`routeTable.Update`. -/
def publishRoutes (w : WState) : WState :=
  { w with routes := buildRoutes w }

/-- syncJob (part_005 lines 204-241) parameterised by the full-sync
fallback taken when the status fetch errors, returns a non-200 status, or
fails to decode: update agent hostnames from the response, replace this
job's cached tasks, and rebuild routes. -/
def syncJobWith (syncFull : WState → WState) (env : Env) (w : WState) (jobName : Str) :
    WState :=
  match env.jobStatus jobName with
  | .error _ => syncFull w
  | .ok status =>
    let agentHosts := status.agents.foldl (fun acc a =>
      let h := env.hostOf a.endpoint
      if h = [] then acc else mapInsert a.id h acc) w.agentHosts
    publishRoutes { w with
      agentHosts := agentHosts
      tasks := mapInsert jobName status.tasksByAgent w.tasks }

/-- sync (part_005 lines 162-201): fetch agents and jobs (abandoning the
sync, state untouched, if either fetch fails), rebuild the whole cache,
fetch per-job status for every relevant job (syncJob falls back to a full
sync on failure, hence the fuel, which bounds the recursion depth of the
Go original; fuel exhaustion leaves the state as is), then rebuild
routes. -/
def sync : Nat → Env → WState → WState
  | 0, _, w => w
  | fuel + 1, env, w =>
    match env.agents with
    | .error _ => w
    | .ok agents =>
      match env.jobs with
      | .error _ => w
      | .ok jobs =>
        let agentHosts := agents.foldl (fun acc a =>
          let h := env.hostOf a.endpoint
          if h = [] then acc else mapInsert a.id h acc) []
        let jobsMap := jobs.foldl (fun acc job => mapInsert job.name job acc) []
        let relevant := jobs.foldl (fun acc job =>
          if jobMatchesFilter w.tagFilter job && jobHasURLPrefixTag job then
            setInsert job.name acc
          else acc) []
        let w1 := { w with
          agentHosts := agentHosts
          jobs := jobsMap
          relevant := relevant
          tasks := [] }
        let w2 := relevant.foldl (fun acc jobName =>
          syncJobWith (sync fuel env) env acc jobName) w1
        publishRoutes w2

/-- syncJob (part_005): one incremental sync, falling back to a full sync
with the given fuel on a failed fetch. -/
def syncJob (fuel : Nat) (env : Env) (w : WState) (jobName : Str) : WState :=
  syncJobWith (sync fuel env) env w jobName

/-! ## C8: RecordRequest invalidates exactly its own cache entry -/

/-- C8: every RecordRequest call invalidates exactly the sorted-cache
entry for its own (domain, backend) pair: that entry becomes absent, and
the cached snapshot of every other pair is untouched. -/
theorem recordRequest_cache_frame (m : Metrics) (domain backend : Str) (c : Int)
    (t : ℚ) (d b : Str) (hne : ¬(d = domain ∧ b = backend)) :
    (m.recordRequest domain backend c t).sortedCache domain backend = none
    ∧ (m.recordRequest domain backend c t).sortedCache d b = m.sortedCache d b := by
  constructor
  · simp [Metrics.recordRequest]
  · simp only [Metrics.recordRequest]
    rw [if_neg hne]

def frameDom : Str := ("api.example.com").toList

def frameBackA : Str := ("10.0.0.1:8001").toList

def frameBackB : Str := ("10.0.0.2:8001").toList

/-- One-valued rationals used in concrete metrics evaluations. -/
def qv (n : Int) (d : Nat) (h1 : d ≠ 0 := by decide) (h2 : n.natAbs.Coprime d := by decide) :
    ℚ :=
  ⟨n, d, h1, h2⟩

def frameStore : Metrics := Metrics.new.recordRequest frameDom frameBackB 200 (qv 1 2)

/-- Witness for C8 at a concrete store and concrete distinct pairs. -/
theorem recordRequest_cache_frame_witness :
    ¬(frameDom = frameDom ∧ frameBackB = frameBackA)
    ∧ (frameStore.recordRequest frameDom frameBackA 200 (qv 3 2)).sortedCache
        frameDom frameBackA = none
    ∧ (frameStore.recordRequest frameDom frameBackA 200 (qv 3 2)).sortedCache
        frameDom frameBackB = frameStore.sortedCache frameDom frameBackB :=
  ⟨by decide,
   recordRequest_cache_frame frameStore frameDom frameBackA 200 (qv 3 2)
     frameDom frameBackB (by decide)⟩

/-! ## C1: failure semantics of full and incremental sync -/

/-- When the agents fetch or the jobs fetch fails (network error, non-200
status, or decode failure), a full sync returns before mutating anything:
the watcher state, route table included, is exactly the prior one. -/
theorem sync_fetch_failed (fuel : Nat) (env : Env) (w : WState)
    (h : env.agents.isOk = false ∨ env.jobs.isOk = false) : sync fuel env w = w := by
  cases fuel with
  | zero => rfl
  | succ f =>
    cases ha : env.agents with
    | error e => simp [sync, ha]
    | ok as =>
      cases hj : env.jobs with
      | error e => simp [sync, ha, hj]
      | ok js =>
        exfalso
        rcases h with h | h
        · rw [ha] at h; simp [Except.isOk, Except.toBool] at h
        · rw [hj] at h; simp [Except.isOk, Except.toBool] at h

/-- C1 (amended): a failed fetch during a full sync abandons that sync
and leaves the watcher state — in particular the route table — exactly
as it was.  A failed incremental fetch does not abandon the cycle: it
falls back to a full sync (part_005 lines 206-225), so the route table is
guaranteed unchanged only when that full sync's own fetches also fail.
Every failure path returns normally, so no failure terminates the
watcher. -/
theorem watcher_sync_failure (fuel : Nat) (env : Env) (w : WState) (jobName : Str) :
    ((env.agents.isOk = false ∨ env.jobs.isOk = false) → sync (fuel + 1) env w = w)
    ∧ ((env.jobStatus jobName).isOk = false →
        (env.agents.isOk = false ∨ env.jobs.isOk = false) →
        syncJob fuel env w jobName = w) := by
  constructor
  · exact fun h => sync_fetch_failed _ env w h
  · intro hjs h
    unfold syncJob syncJobWith
    cases hst : env.jobStatus jobName with
    | error e => simpa using sync_fetch_failed fuel env w h
    | ok s => rw [hst] at hjs; simp [Except.isOk, Except.toBool] at hjs

def downEnv : Env :=
  { agents := .error .network
    jobs := .error .network
    jobStatus := fun _ => .error .badStatus
    hostOf := fun _ => [] }

def priorState : WState :=
  { tagFilter := []
    agentHosts := [(("a1").toList, ("n1").toList)]
    jobs := []
    relevant := []
    tasks := []
    routes := [(("web.example.com").toList,
      { pattern := ("web.example.com").toList
        backends := [{ address := ("n1:8080").toList, healthy := true }]
        next := 0 })] }

/-- Witness for C1 (amended) at a concrete downed environment. -/
theorem watcher_sync_failure_witness :
    (downEnv.agents.isOk = false ∨ downEnv.jobs.isOk = false)
    ∧ (downEnv.jobStatus (("job1").toList)).isOk = false
    ∧ sync 4 downEnv priorState = priorState
    ∧ syncJob 3 downEnv priorState (("job1").toList) = priorState :=
  ⟨Or.inl (by decide), by decide,
   (watcher_sync_failure 3 downEnv priorState (("job1").toList)).1 (Or.inl (by decide)),
   (watcher_sync_failure 3 downEnv priorState (("job1").toList)).2 (by decide)
     (Or.inl (by decide))⟩

def fallbackEnv : Env :=
  { agents := .ok []
    jobs := .ok []
    jobStatus := fun _ => .error .network
    hostOf := fun _ => [] }

/-- Counterexample to C1 as stated: an incremental sync whose status
fetch fails with a network error does not leave the route table
unchanged — the watcher falls back to a full sync, which here succeeds
with an empty cluster and clears the previously published route. -/
theorem watcher_sync_failure_counterexample :
    (fallbackEnv.jobStatus (("job1").toList)).isOk = false
    ∧ (syncJob 1 fallbackEnv priorState (("job1").toList)).routes ≠ priorState.routes := by
  constructor
  · decide
  · decide

/-! ## C3: Match semantics -/

/-- A successful wildcard match forces the pattern shape: `*.` followed
by the dot-led suffix that ends the host with equal dot counts. -/
theorem matchWildcard_shape {p h : Str} (hm : matchWildcard p h = true) :
    ∃ q, p = '*' :: '.' :: q ∧ ('.' :: q) <:+ h
      ∧ h.count '.' = ('.' :: q).count '.' := by
  unfold matchWildcard at hm
  split at hm
  case isTrue hp =>
    obtain ⟨t, ht⟩ := hp
    have hdrop : p.drop 1 = '.' :: t := by simp [← ht]
    rw [Bool.and_eq_true] at hm
    obtain ⟨hm1, hm2⟩ := hm
    rw [hdrop] at hm1 hm2
    exact ⟨t, by simp [← ht], of_decide_eq_true hm1, by simpa using hm2⟩
  case isFalse => exact absurd hm (by simp)

/-- Two dot-led suffixes of the same host with the host's dot count must
coincide (ordered case). -/
theorem suffix_dot_eq {t1 t2 h : Str} (h12 : t1 <:+ t2) (_ht2 : t2 <:+ h)
    (c1 : h.count '.' = t1.count '.') (c2 : h.count '.' = t2.count '.')
    (s2 : ∃ q, t2 = '.' :: q) : t1 = t2 := by
  obtain ⟨a, ha⟩ := h12
  cases a with
  | nil => simpa using ha
  | cons c a' =>
    exfalso
    obtain ⟨q2, hq2⟩ := s2
    have hc : c = '.' := by
      have hcq := ha.trans hq2
      simpa using congrArg (fun l => l.headD ' ') hcq
    have hcnt : t2.count '.' = (c :: a').count '.' + t1.count '.' := by
      rw [← ha, List.count_append]
    rw [hc] at hcnt
    have : ('.' :: a').count '.' = a'.count '.' + 1 := by
      simp [List.count_cons]
    omega

/-- At most one wildcard pattern in any table matches a given host. -/
theorem wildcardPattern_unique {p1 p2 h : Str} (h1 : matchWildcard p1 h = true)
    (h2 : matchWildcard p2 h = true) : p1 = p2 := by
  obtain ⟨q1, hp1, hs1, hc1⟩ := matchWildcard_shape h1
  obtain ⟨q2, hp2, hs2, hc2⟩ := matchWildcard_shape h2
  rcases List.suffix_or_suffix_of_suffix hs1 hs2 with hss | hss
  · have he := suffix_dot_eq hss hs2 hc1 hc2 ⟨q2, rfl⟩
    rw [hp1, hp2]
    injection he with _ he'
    rw [he']
  · have he := suffix_dot_eq hss hs1 hc2 hc1 ⟨q1, rfl⟩
    rw [hp1, hp2]
    injection he with _ he'
    rw [he']

/-- In a table whose keys are distinct (a Go map), entries with the same
key carry the same route. -/
theorem nodup_keys_route_eq {l : RouteTable} {p : Str} {r1 r2 : Route}
    (hnd : (l.map Prod.fst).Nodup) (h1 : (p, r1) ∈ l) (h2 : (p, r2) ∈ l) :
    r1 = r2 := by
  induction l with
  | nil => cases h1
  | cons hd tl ih =>
    rw [List.map_cons, List.nodup_cons] at hnd
    rcases List.mem_cons.mp h1 with h1' | h1' <;> rcases List.mem_cons.mp h2 with h2' | h2'
    · have hpq := h1'.trans h2'.symm
      simpa using hpq
    · exfalso
      apply hnd.1
      have hk : hd.1 = p := by rw [← h1']
      rw [hk]
      exact List.mem_map.mpr ⟨(p, r2), h2', rfl⟩
    · exfalso
      apply hnd.1
      have hk : hd.1 = p := by rw [← h2']
      rw [hk]
      exact List.mem_map.mpr ⟨(p, r1), h1', rfl⟩
    · exact ih hnd.2 h1' h2'

/-- C3: Match first strips an optional trailing port, then (1) returns
the exact route for the stripped host whenever one exists, even when a
wildcard also matches; (2) otherwise returns the route of the (unique)
wildcard pattern matching the stripped host when one exists; (3) returns
none when neither exists; (4) the wildcard relation is single-level:
`*.example.com` matches `app.example.com` but neither `example.com` nor
`sub.app.example.com`; and (5) `Match("api.example.com:443")` equals
`Match("api.example.com")` on every table. -/
theorem match_semantics :
    (∀ (routes : RouteTable) (host : Str) (r : Route),
        routes.lookup (stripPort host) = some r → matchRoute routes host = some r)
    ∧ (∀ (routes : RouteTable) (host p : Str) (r : Route),
        (routes.map Prod.fst).Nodup →
        routes.lookup (stripPort host) = none →
        (p, r) ∈ routes → matchWildcard p (stripPort host) = true →
        matchRoute routes host = some r)
    ∧ (∀ (routes : RouteTable) (host : Str),
        routes.lookup (stripPort host) = none →
        (∀ pr ∈ routes, matchWildcard pr.1 (stripPort host) = false) →
        matchRoute routes host = none)
    ∧ (matchWildcard (("*.example.com").toList) (("app.example.com").toList) = true
       ∧ matchWildcard (("*.example.com").toList) (("example.com").toList) = false
       ∧ matchWildcard (("*.example.com").toList) (("sub.app.example.com").toList) = false)
    ∧ (∀ routes : RouteTable,
        matchRoute routes (("api.example.com:443").toList)
          = matchRoute routes (("api.example.com").toList)) := by
  refine ⟨?_, ?_, ?_, ⟨by decide, by decide, by decide⟩, ?_⟩
  · intro routes host r hex
    simp [matchRoute, hex]
  · intro routes host p r hnd hex hmem hw
    simp only [matchRoute, hex]
    have hsome : (routes.find? (fun pr => matchWildcard pr.1 (stripPort host))).isSome := by
      rw [List.find?_isSome]
      exact ⟨(p, r), hmem, hw⟩
    obtain ⟨pr', hpr'⟩ := Option.isSome_iff_exists.mp hsome
    have hw0 := List.find?_some hpr'
    have hw' : matchWildcard pr'.1 (stripPort host) = true := hw0
    have hmem' : pr' ∈ routes := List.mem_of_find?_eq_some hpr'
    have hkey : pr'.1 = p := wildcardPattern_unique hw' hw
    have : pr'.2 = r := by
      apply nodup_keys_route_eq hnd _ hmem
      rw [← hkey]
      exact hmem'
    rw [hpr']
    simp [this]
  · intro routes host hex hnone
    simp only [matchRoute, hex]
    have : routes.find? (fun pr => matchWildcard pr.1 (stripPort host)) = none := by
      rw [List.find?_eq_none]
      intro pr hpr
      simp [hnone pr hpr]
    rw [this]
    rfl
  · intro routes
    have h1 : stripPort (("api.example.com:443").toList) = ("api.example.com").toList := by
      decide
    have h2 : stripPort (("api.example.com").toList) = ("api.example.com").toList := by
      decide
    simp only [matchRoute, h1, h2]

def exactRouteW : Route :=
  { pattern := ("api.example.com").toList
    backends := [{ address := ("10.0.0.1:9001").toList, healthy := true }]
    next := 0 }

def wildRouteW : Route :=
  { pattern := ("*.example.com").toList
    backends := [{ address := ("10.0.0.2:9001").toList, healthy := true }]
    next := 0 }

def tableW : RouteTable :=
  [(("api.example.com").toList, exactRouteW), (("*.example.com").toList, wildRouteW)]

/-- Witness for C3 on a concrete table holding both an exact route and a
wildcard route: exact precedence on `api.example.com`, wildcard fallback
on `app.example.com`, a miss on `other.org`, and port stripping. -/
theorem match_semantics_witness :
    matchRoute tableW (("api.example.com").toList) = some exactRouteW
    ∧ matchRoute tableW (("app.example.com").toList) = some wildRouteW
    ∧ matchRoute tableW (("other.org").toList) = none
    ∧ matchRoute tableW (("api.example.com:443").toList)
        = matchRoute tableW (("api.example.com").toList) :=
  ⟨match_semantics.1 tableW (("api.example.com").toList) exactRouteW (by decide),
   match_semantics.2.1 tableW (("app.example.com").toList) (("*.example.com").toList)
     wildRouteW (by decide) (by decide) (by decide) (by decide),
   match_semantics.2.2.1 tableW (("other.org").toList) (by decide) (by decide),
   match_semantics.2.2.2.2 tableW⟩

/-! ## Modular arithmetic helpers for the round-robin scan -/

/-- The canonical preimage: starting from offset `m`, step
`(t + n - m % n) % n` lands on slot `t`. -/
theorem mod_shift_hit (n m t : Nat) (hn : 0 < n) (ht : t < n) :
    (m + (t + n - m % n) % n) % n = t := by
  have h1 : m % n ≤ m := Nat.mod_le m n
  have h2 : m % n < n := Nat.mod_lt m hn
  have h3 := Nat.div_add_mod m n
  calc (m + (t + n - m % n) % n) % n
      = (m + (t + n - m % n)) % n := by rw [Nat.add_mod_mod]
    _ = (n * (m / n) + (n + t)) % n := by congr 1; omega
    _ = (n + t) % n := by rw [Nat.mul_add_mod]
    _ = t % n := Nat.add_mod_left n t
    _ = t := Nat.mod_eq_of_lt ht

/-- Stepping from a fixed offset is injective on one cycle. -/
theorem mod_shift_inj (n m : Nat) {j1 j2 : Nat} (h1 : j1 < n) (h2 : j2 < n)
    (he : (m + j1) % n = (m + j2) % n) : j1 = j2 := by
  have h3 : j1 ≡ j2 [MOD n] := Nat.ModEq.add_left_cancel' m he
  have h4 : j1 % n = j2 % n := h3
  rw [Nat.mod_eq_of_lt h1, Nat.mod_eq_of_lt h2] at h4
  exact h4

/-- Every slot is reached within one cycle. -/
theorem mod_shift_surj (n m t : Nat) (hn : 0 < n) (ht : t < n) :
    ∃ j, j < n ∧ (m + j) % n = t :=
  ⟨(t + n - m % n) % n, Nat.mod_lt _ hn, mod_shift_hit n m t hn ht⟩

/-- A duplicate-free list whose members all equal `a` and which contains
`a` has exactly one element. -/
theorem length_eq_one_of_nodup {α : Type} {l : List α} {a : α} (hnd : l.Nodup)
    (ha : a ∈ l) (hall : ∀ x ∈ l, x = a) : l.length = 1 := by
  cases l with
  | nil => cases ha
  | cons x tl =>
    cases tl with
    | nil => rfl
    | cons y tl' =>
      exfalso
      have hx : x = a := hall x (by simp)
      have hy : y = a := hall y (by simp)
      rw [List.nodup_cons] at hnd
      exact hnd.1 (by rw [hx, ← hy]; simp)

/-- Within one full cycle of `n` consecutive steps, each slot `t < n` is
selected exactly once. -/
theorem countP_mod_range_one (n m t : Nat) (hn : 0 < n) (ht : t < n) :
    (List.range n).countP (fun j => (m + j) % n == t) = 1 := by
  rw [List.countP_eq_length_filter]
  apply length_eq_one_of_nodup (List.Nodup.filter _ (List.nodup_range n))
    (a := (t + n - m % n) % n)
  · rw [List.mem_filter]
    refine ⟨List.mem_range.mpr (Nat.mod_lt _ hn), ?_⟩
    simp [mod_shift_hit n m t hn ht]
  · intro x hx
    rw [List.mem_filter] at hx
    have hx1 : x < n := List.mem_range.mp hx.1
    have hx2 : (m + x) % n = t := by simpa using hx.2
    apply mod_shift_inj n m hx1 (Nat.mod_lt _ hn)
    rw [hx2, mod_shift_hit n m t hn ht]

/-- Over `n * k` consecutive steps each slot `t < n` is selected exactly
`k` times. -/
theorem countP_mod_range_mul (n m t : Nat) (hn : 0 < n) (ht : t < n) (k : Nat) :
    (List.range (n * k)).countP (fun j => (m + j) % n == t) = k := by
  induction k with
  | zero => simp
  | succ i ih =>
    have hsplit : n * (i + 1) = n * i + n := by ring
    rw [hsplit, List.range_add, List.countP_append, ih, List.countP_map]
    have : (List.range n).countP
        ((fun j => (m + j) % n == t) ∘ (fun j => n * i + j)) = 1 := by
      have hcomp : ((fun j => (m + j) % n == t) ∘ (fun j => n * i + j))
          = fun j => ((m + n * i) + j) % n == t := by
        funext j
        have harg : m + (n * i + j) = m + n * i + j := by omega
        simp only [Function.comp]
        rw [harg]
      rw [hcomp]
      exact countP_mod_range_one n (m + n * i) t hn ht
    omega

/-! ## Behaviour of the GetHealthyBackend scan -/

/-- The default value used to phrase slice reads positionally. -/
def defaultBackend : Backend := { address := [], healthy := false }

/-- While the cursor stays below 2^63, Go's `int` conversion is the
identity and the truncated remainder is the ordinary `Nat` remainder, so
the scanned index is just `(start + i) % n`. -/
theorem stepIdx_small (s i n : Nat) (hn : 0 < n) (hs : s + i < 2 ^ 63) :
    stepIdx (s : Int) i n = (((s + i) % n : Nat) : Int) := by
  have hw : wrapInt64 ((s : Int) + (i : Nat)) = ((s + i : Nat) : Int) := by
    unfold wrapInt64
    push_cast
    omega
  unfold stepIdx
  rw [hw]
  rw [Int.tmod_eq_emod (by positivity) (by positivity)]
  exact (Int.natCast_mod (s + i) n).symm

/-- When every backend is healthy and the start offset is small, the
scan returns the backend at `(s + i) % n` immediately. -/
theorem scanBackends_healthy_first (bs : List Backend) (s i fuel : Nat)
    (hn : 0 < bs.length) (hs : s + i < 2 ^ 63)
    (hh : ∀ b ∈ bs, b.healthy = true) :
    scanBackends bs (s : Int) i (fuel + 1)
      = .found (bs.getD ((s + i) % bs.length) defaultBackend) := by
  have hidx := stepIdx_small s i bs.length hn hs
  have hlt : (s + i) % bs.length < bs.length := Nat.mod_lt _ hn
  simp only [scanBackends, hidx]
  have hb : (0 : Int) ≤ (((s + i) % bs.length : Nat) : Int)
      ∧ ((((s + i) % bs.length : Nat) : Int)).toNat < bs.length := by
    constructor
    · positivity
    · omega
  rw [dif_pos hb]
  have hmem : bs.get ⟨((((s + i) % bs.length : Nat) : Int)).toNat, hb.2⟩ ∈ bs :=
    List.get_mem bs _ _
  have hhealthy : (bs.get ⟨((((s + i) % bs.length : Nat) : Int)).toNat, hb.2⟩).healthy
      = true := hh _ hmem
  rw [if_pos hhealthy]
  have hval : bs.get ⟨((((s + i) % bs.length : Nat) : Int)).toNat, hb.2⟩
      = bs.getD ((s + i) % bs.length) defaultBackend := by
    rw [List.getD_eq_getElem bs defaultBackend hlt, List.get_eq_getElem]
    simp only [Int.toNat_natCast]
  rw [hval]

/-- One GetHealthyBackend call on an all-healthy route with a small
cursor: the cursor advances by one and the backend at the new cursor
position (mod `n`) is returned. -/
theorem getHealthyBackend_all_healthy (r : Route) (hne : r.backends ≠ [])
    (hh : ∀ b ∈ r.backends, b.healthy = true) (hc : r.next + 1 < 2 ^ 63) :
    getHealthyBackend r
      = (.found (r.backends.getD ((r.next + 1) % r.backends.length) defaultBackend),
         { r with next := r.next + 1 }) := by
  have hn : r.backends.length ≠ 0 := by
    simpa [List.length_eq_zero] using hne
  have hstart : (r.next + 1) % 2 ^ 64 = r.next + 1 := Nat.mod_eq_of_lt (by omega)
  have hwrap : wrapInt64 ((r.next + 1 : Nat) : Int) = ((r.next + 1 : Nat) : Int) := by
    unfold wrapInt64
    push_cast
    omega
  obtain ⟨m, hm⟩ : ∃ m, r.backends.length = m + 1 := ⟨r.backends.length - 1, by omega⟩
  have hscan2 : scanBackends r.backends ((r.next + 1 : Nat) : Int) 0 (m + 1)
      = .found (r.backends.getD ((r.next + 1) % r.backends.length) defaultBackend) := by
    have hscan := scanBackends_healthy_first r.backends (r.next + 1) 0 m
      (by omega) (by omega) hh
    simpa using hscan
  rw [hm] at hscan2
  unfold getHealthyBackend
  rw [if_neg hn, hstart, hwrap, hm, hscan2]

/-- A run of `k` sequential calls on an all-healthy route with small
cursor: call `j` (0-based) returns the backend at `(next + 1 + j) % n`,
and the cursor ends at `next + k`. -/
theorem callsRR_all_healthy (k : Nat) : ∀ r : Route, r.backends ≠ [] →
    (∀ b ∈ r.backends, b.healthy = true) → r.next + k < 2 ^ 63 →
    (callsRR r k).1 = (List.range k).map
        (fun j => ScanOutcome.found
          (r.backends.getD ((r.next + 1 + j) % r.backends.length) defaultBackend))
    ∧ (callsRR r k).2 = { r with next := r.next + k } := by
  induction k with
  | zero =>
    intro r _ _ _
    exact ⟨rfl, by simp [callsRR]⟩
  | succ m ih =>
    intro r hne hh hc
    have hstep := getHealthyBackend_all_healthy r hne hh (by omega)
    have hres : (getHealthyBackend r).1
        = .found (r.backends.getD ((r.next + 1) % r.backends.length) defaultBackend) := by
      rw [hstep]
    have hr1 : (getHealthyBackend r).2 = { r with next := r.next + 1 } := by
      rw [hstep]
    obtain ⟨ihl, ihr⟩ := ih { r with next := r.next + 1 } hne hh (by simp; omega)
    constructor
    · show ((getHealthyBackend r).1 :: (callsRR (getHealthyBackend r).2 m).1) = _
      rw [hres, hr1, ihl]
      rw [List.range_succ_eq_map, List.map_cons, List.map_map]
      rw [List.cons.injEq]
      refine ⟨by simp, ?_⟩
      apply List.map_congr_left
      intro j hj
      simp only [Function.comp]
      show ScanOutcome.found
          (r.backends.getD ((r.next + 1 + 1 + j) % r.backends.length) defaultBackend)
        = ScanOutcome.found
          (r.backends.getD ((r.next + 1 + Nat.succ j) % r.backends.length) defaultBackend)
      have harith : r.next + 1 + 1 + j = r.next + 1 + Nat.succ j := by omega
      rw [harith]
    · show (callsRR (getHealthyBackend r).2 m).2 = _
      rw [hr1, ihr]
      have harith : r.next + 1 + m = r.next + (m + 1) := by omega
      simp [harith]

/-- Positional read of a backend through the `Int` round trip the scan
performs. -/
theorem getD_of_lt (bs : List Backend) (k : Nat) (hk : k < bs.length)
    (h2 : (((k : Nat) : Int)).toNat < bs.length) :
    bs.get ⟨(((k : Nat) : Int)).toNat, h2⟩ = bs.getD k defaultBackend := by
  rw [List.getD_eq_getElem bs defaultBackend hk, List.get_eq_getElem]
  simp only [Int.toNat_natCast]

/-- Full behaviour of the scan loop with a small non-negative start: it
never panics, anything it returns is a healthy member, and it returns nil
exactly when every probed slot from the current offset on is unhealthy. -/
theorem scanBackends_spec (bs : List Backend) (s : Nat) (hn : 0 < bs.length)
    (hs : s + bs.length ≤ 2 ^ 63) :
    ∀ fuel i, i + fuel = bs.length →
    (scanBackends bs (s : Int) i fuel ≠ .outOfRange)
    ∧ (∀ b, scanBackends bs (s : Int) i fuel = .found b → b ∈ bs ∧ b.healthy = true)
    ∧ (scanBackends bs (s : Int) i fuel = .noneHealthy ↔
        ∀ j, i ≤ j → j < bs.length →
          (bs.getD ((s + j) % bs.length) defaultBackend).healthy = false) := by
  intro fuel
  induction fuel with
  | zero =>
    intro i hi
    refine ⟨by simp [scanBackends], ?_, ?_⟩
    · intro b hb
      simp [scanBackends] at hb
    · constructor
      · intro _ j hj1 hj2
        omega
      · intro _
        rfl
  | succ fuel ih =>
    intro i hi
    have hilt : i < bs.length := by omega
    have hsi : s + i < 2 ^ 63 := by omega
    have hidx := stepIdx_small s i bs.length hn hsi
    have hlt : (s + i) % bs.length < bs.length := Nat.mod_lt _ hn
    have hb : (0 : Int) ≤ (((s + i) % bs.length : Nat) : Int)
        ∧ ((((s + i) % bs.length : Nat) : Int)).toNat < bs.length := by
      constructor
      · positivity
      · omega
    have hval := getD_of_lt bs ((s + i) % bs.length) hlt hb.2
    have hstep : scanBackends bs (s : Int) i (fuel + 1)
        = if (bs.getD ((s + i) % bs.length) defaultBackend).healthy
          then .found (bs.getD ((s + i) % bs.length) defaultBackend)
          else scanBackends bs (s : Int) (i + 1) fuel := by
      simp only [scanBackends, hidx]
      rw [dif_pos hb, hval]
    by_cases hbh : (bs.getD ((s + i) % bs.length) defaultBackend).healthy = true
    · rw [hstep, if_pos hbh]
      have hmemD : bs.getD ((s + i) % bs.length) defaultBackend ∈ bs := by
        rw [List.getD_eq_getElem bs defaultBackend hlt]
        exact List.getElem_mem _
      refine ⟨by simp, ?_, ?_⟩
      · intro b hfb
        injection hfb with hX
        exact ⟨hX ▸ hmemD, hX ▸ hbh⟩
      · constructor
        · intro h
          exact absurd h (by simp)
        · intro hall
          have hfalse := hall i (Nat.le_refl i) hilt
          rw [hfalse] at hbh
          exact (Bool.false_ne_true hbh).elim
    · rw [hstep, if_neg hbh]
      obtain ⟨ih1, ih2, ih3⟩ := ih (i + 1) (by omega)
      refine ⟨ih1, ih2, ?_⟩
      rw [ih3]
      constructor
      · intro hall j hj1 hj2
        rcases Nat.eq_or_lt_of_le hj1 with he | hl
        · rw [← he]
          simpa using hbh
        · exact hall j hl hj2
      · intro hall j hj1 hj2
        exact hall j (by omega) hj2

/-- C5 (amended): while the cursor is below 2^63 minus the backend
count (every reachable cursor in practice — it would take 2^63 requests
to leave this range), GetHealthyBackend never panics, never returns an
unhealthy backend, and returns nil exactly when the backends list is
empty or every backend is unhealthy.  (Without the cursor bound the
nil-iff direction fails: see the counterexample.) -/
theorem getHealthyBackend_healthy_or_none (r : Route)
    (hc : r.next + r.backends.length < 2 ^ 63) :
    ((getHealthyBackend r).1 ≠ .outOfRange)
    ∧ (∀ b, (getHealthyBackend r).1 = .found b → b.healthy = true)
    ∧ ((getHealthyBackend r).1 = .noneHealthy ↔
        (r.backends = [] ∨ ∀ b ∈ r.backends, b.healthy = false)) := by
  by_cases hlen : r.backends.length = 0
  · have he : r.backends = [] := List.length_eq_zero.mp hlen
    have hg : (getHealthyBackend r).1 = .noneHealthy := by
      unfold getHealthyBackend
      rw [if_pos hlen]
    rw [hg]
    refine ⟨by simp, ?_, ?_⟩
    · intro b hfb
      exact absurd hfb (by simp)
    · simp [he]
  · have hn : 0 < r.backends.length := Nat.pos_of_ne_zero hlen
    have hstart : (r.next + 1) % 2 ^ 64 = r.next + 1 := Nat.mod_eq_of_lt (by omega)
    have hwrap : wrapInt64 ((r.next + 1 : Nat) : Int) = ((r.next + 1 : Nat) : Int) := by
      unfold wrapInt64
      push_cast
      omega
    have hg : (getHealthyBackend r).1
        = scanBackends r.backends ((r.next + 1 : Nat) : Int) 0 r.backends.length := by
      unfold getHealthyBackend
      rw [if_neg hlen, hstart, hwrap]
    obtain ⟨h1, h2, h3⟩ := scanBackends_spec r.backends (r.next + 1) hn (by omega)
      r.backends.length 0 (by omega)
    rw [hg, h3]
    refine ⟨h1, fun b hb => (h2 b hb).2, ?_⟩
    constructor
    · intro hall
      right
      intro b hbmem
      obtain ⟨p, hp, hpe⟩ := List.mem_iff_getElem.mp hbmem
      obtain ⟨j, hj, hje⟩ := mod_shift_surj r.backends.length (r.next + 1) p hn hp
      have hjj := hall j (by omega) hj
      rw [hje, List.getD_eq_getElem _ _ hp, hpe] at hjj
      exact hjj
    · intro hcase j hj1 hj2
      rcases hcase with he | hall
      · exfalso
        rw [he] at hn
        simp at hn
      · apply hall
        rw [List.getD_eq_getElem _ _ (Nat.mod_lt _ hn)]
        exact List.getElem_mem _

def mixedRoute : Route :=
  { pattern := ("api.example.com").toList
    backends := [{ address := ("10.0.0.1:9000").toList, healthy := false },
                 { address := ("10.0.0.2:9000").toList, healthy := true }]
    next := 5 }

/-- Witness for C5 (amended) on a concrete route with one unhealthy and
one healthy backend and a small cursor. -/
theorem getHealthyBackend_healthy_or_none_witness :
    mixedRoute.next + mixedRoute.backends.length < 2 ^ 63
    ∧ (((getHealthyBackend mixedRoute).1 ≠ .outOfRange)
       ∧ (∀ b, (getHealthyBackend mixedRoute).1 = .found b → b.healthy = true)
       ∧ ((getHealthyBackend mixedRoute).1 = .noneHealthy ↔
           (mixedRoute.backends = [] ∨ ∀ b ∈ mixedRoute.backends, b.healthy = false))) :=
  ⟨by decide, getHealthyBackend_healthy_or_none mixedRoute (by decide)⟩

def stuckRoute : Route :=
  { pattern := ("api.example.com").toList
    backends := [{ address := ("10.0.0.1:9000").toList, healthy := false },
                 { address := ("10.0.0.2:9000").toList, healthy := false },
                 { address := ("10.0.0.3:9000").toList, healthy := false }]
    next := 2 ^ 63 - 1 }

/-- Counterexample to C5 as stated: with three unhealthy backends and the
cursor at 2^63 - 1, the call does not return nil as the claim requires —
the computed slice index is negative and the access panics. -/
theorem getHealthyBackend_healthy_or_none_counterexample :
    stuckRoute.backends.all (fun b => !b.healthy) = true
    ∧ (getHealthyBackend stuckRoute).1 ≠ .noneHealthy := by
  constructor
  · decide
  · decide

/-- C4 (amended): on an all-healthy route whose cursor stays below 2^63
across the run, call `j` of `n*k` sequential GetHealthyBackend calls
returns the backend at slot `(cursor+1+j) mod n`, each slot `t < n` is
selected exactly `k` times, and with two backends three successive calls
strictly alternate.  (Without the cursor bound a call can panic instead:
see the counterexample.) -/
theorem roundRobin_fairness (r : Route) (k t : Nat) (hne : r.backends ≠ [])
    (hh : ∀ b ∈ r.backends, b.healthy = true) (ht : t < r.backends.length)
    (hc : r.next + r.backends.length * k < 2 ^ 63) :
    ((callsRR r (r.backends.length * k)).1
      = (List.range (r.backends.length * k)).map
          (fun j => ScanOutcome.found
            (r.backends.getD ((r.next + 1 + j) % r.backends.length) defaultBackend)))
    ∧ ((List.range (r.backends.length * k)).countP
          (fun j => (r.next + 1 + j) % r.backends.length == t) = k)
    ∧ (r.backends.length = 2 → r.next + 3 < 2 ^ 63 →
        (callsRR r 3).1
          = [ .found (r.backends.getD ((r.next + 1) % 2) defaultBackend),
              .found (r.backends.getD ((r.next + 2) % 2) defaultBackend),
              .found (r.backends.getD ((r.next + 3) % 2) defaultBackend)]
        ∧ (r.next + 1) % 2 ≠ (r.next + 2) % 2
        ∧ (r.next + 3) % 2 = (r.next + 1) % 2) := by
  have hn : 0 < r.backends.length := List.length_pos.mpr hne
  obtain ⟨hlist, _⟩ := callsRR_all_healthy (r.backends.length * k) r hne hh (by omega)
  refine ⟨hlist, countP_mod_range_mul r.backends.length (r.next + 1) t hn ht k, ?_⟩
  intro h2 hc3
  obtain ⟨hl3, _⟩ := callsRR_all_healthy 3 r hne hh (by omega)
  refine ⟨?_, by omega, by omega⟩
  rw [hl3, h2]
  have hr3 : List.range 3 = [0, 1, 2] := by decide
  rw [hr3]
  show [ScanOutcome.found (r.backends.getD ((r.next + 1 + 0) % 2) defaultBackend),
        ScanOutcome.found (r.backends.getD ((r.next + 1 + 1) % 2) defaultBackend),
        ScanOutcome.found (r.backends.getD ((r.next + 1 + 2) % 2) defaultBackend)] = _
  have e1 : r.next + 1 + 0 = r.next + 1 := by omega
  have e2 : r.next + 1 + 1 = r.next + 2 := by omega
  have e3 : r.next + 1 + 2 = r.next + 3 := by omega
  rw [e1, e2, e3]

def fairRoute : Route :=
  { pattern := ("api.example.com").toList
    backends := [{ address := ("10.0.0.1:9000").toList, healthy := true },
                 { address := ("10.0.0.2:9000").toList, healthy := true }]
    next := 0 }

/-- Witness for C4 (amended): two healthy backends, cursor 0, `k = 2`
(four calls), slot 0. -/
theorem roundRobin_fairness_witness :
    fairRoute.backends ≠ []
    ∧ (∀ b ∈ fairRoute.backends, b.healthy = true)
    ∧ (((callsRR fairRoute (fairRoute.backends.length * 2)).1
        = (List.range (fairRoute.backends.length * 2)).map
            (fun j => ScanOutcome.found
              (fairRoute.backends.getD
                ((fairRoute.next + 1 + j) % fairRoute.backends.length) defaultBackend)))
      ∧ ((List.range (fairRoute.backends.length * 2)).countP
            (fun j => (fairRoute.next + 1 + j) % fairRoute.backends.length == 0) = 2)
      ∧ (fairRoute.backends.length = 2 → fairRoute.next + 3 < 2 ^ 63 →
          (callsRR fairRoute 3).1
            = [ .found (fairRoute.backends.getD ((fairRoute.next + 1) % 2) defaultBackend),
                .found (fairRoute.backends.getD ((fairRoute.next + 2) % 2) defaultBackend),
                .found (fairRoute.backends.getD ((fairRoute.next + 3) % 2) defaultBackend)]
          ∧ (fairRoute.next + 1) % 2 ≠ (fairRoute.next + 2) % 2
          ∧ (fairRoute.next + 3) % 2 = (fairRoute.next + 1) % 2)) :=
  ⟨by decide, by decide,
   roundRobin_fairness fairRoute 2 0 (by decide) (by decide) (by decide) (by decide)⟩

def spinRoute : Route :=
  { pattern := ("api.example.com").toList
    backends := [{ address := ("10.0.0.1:9000").toList, healthy := true },
                 { address := ("10.0.0.2:9000").toList, healthy := true }]
    next := 2 ^ 63 - 1 }

/-- Counterexample to C4 as stated: both backends healthy, `N·k = 2`
calls starting at cursor 2^63 - 1.  The first call returns the first
backend, the second call panics on a negative index, and the second
backend is returned zero times instead of once. -/
theorem roundRobin_fairness_counterexample :
    spinRoute.backends.all (fun b => b.healthy) = true
    ∧ (callsRR spinRoute 2).1
        = [ScanOutcome.found { address := ("10.0.0.1:9000").toList, healthy := true },
           ScanOutcome.outOfRange]
    ∧ (callsRR spinRoute 2).1.count
        (ScanOutcome.found { address := ("10.0.0.2:9000").toList, healthy := true }) = 0 := by
  refine ⟨by decide, by decide, by decide⟩

/-- C9 (amended): while the post-increment cursor plus the backend count
stays below 2^63, `int(cursor)` is non-negative, every scan step's index
`(int(cursor) + i) % n` lies in `[0, n)`, and the call cannot panic.  For
cursors at or beyond 2^63 the claim is false: the truncated remainder of
the negative `int64` is negative and the slice access panics (see the
counterexample). -/
theorem scan_index_in_bounds (r : Route) (i : Nat) (hne : r.backends ≠ [])
    (hi : i < r.backends.length) (hc : r.next + r.backends.length < 2 ^ 63) :
    (0 ≤ stepIdx (wrapInt64 (((r.next + 1) % 2 ^ 64 : Nat) : Int)) i r.backends.length
     ∧ stepIdx (wrapInt64 (((r.next + 1) % 2 ^ 64 : Nat) : Int)) i r.backends.length
        < (r.backends.length : Int))
    ∧ (getHealthyBackend r).1 ≠ .outOfRange := by
  have hn : 0 < r.backends.length := List.length_pos.mpr hne
  have hstart : (r.next + 1) % 2 ^ 64 = r.next + 1 := Nat.mod_eq_of_lt (by omega)
  have hwrap : wrapInt64 ((r.next + 1 : Nat) : Int) = ((r.next + 1 : Nat) : Int) := by
    unfold wrapInt64
    push_cast
    omega
  constructor
  · rw [hstart, hwrap]
    rw [stepIdx_small (r.next + 1) i r.backends.length hn (by omega)]
    constructor
    · omega
    · have := Nat.mod_lt (r.next + 1 + i) hn
      omega
  · have hlen : r.backends.length ≠ 0 := by omega
    have hg : (getHealthyBackend r).1
        = scanBackends r.backends ((r.next + 1 : Nat) : Int) 0 r.backends.length := by
      unfold getHealthyBackend
      rw [if_neg hlen, hstart, hwrap]
    rw [hg]
    exact (scanBackends_spec r.backends (r.next + 1) hn (by omega)
      r.backends.length 0 (by omega)).1

def lowRoute : Route :=
  { pattern := ("api.example.com").toList
    backends := [{ address := ("10.0.0.1:9000").toList, healthy := true },
                 { address := ("10.0.0.2:9000").toList, healthy := false }]
    next := 41 }

/-- Witness for C9 (amended) at a concrete small-cursor route and scan
step 1. -/
theorem scan_index_in_bounds_witness :
    lowRoute.backends ≠ []
    ∧ 1 < lowRoute.backends.length
    ∧ ((0 ≤ stepIdx (wrapInt64 (((lowRoute.next + 1) % 2 ^ 64 : Nat) : Int)) 1
          lowRoute.backends.length
        ∧ stepIdx (wrapInt64 (((lowRoute.next + 1) % 2 ^ 64 : Nat) : Int)) 1
            lowRoute.backends.length < (lowRoute.backends.length : Int))
       ∧ (getHealthyBackend lowRoute).1 ≠ .outOfRange) :=
  ⟨by decide, by decide,
   scan_index_in_bounds lowRoute 1 (by decide) (by decide) (by decide)⟩

def panicRoute : Route :=
  { pattern := ("api.example.com").toList
    backends := [{ address := ("10.0.0.1:9000").toList, healthy := true },
                 { address := ("10.0.0.2:9000").toList, healthy := true },
                 { address := ("10.0.0.3:9000").toList, healthy := true }]
    next := 2 ^ 63 - 1 }

/-- Counterexample to C9 as stated: at cursor 2^63 - 1 with three
backends the very first scan index is negative (`int` conversion wraps to
-2^63, and Go's `%` keeps the sign), so the slice access panics even
though every backend is healthy. -/
theorem scan_index_in_bounds_counterexample :
    stepIdx (wrapInt64 (((panicRoute.next + 1) % 2 ^ 64 : Nat) : Int)) 0
        panicRoute.backends.length < 0
    ∧ (getHealthyBackend panicRoute).1 = .outOfRange
    ∧ panicRoute.backends.all (fun b => b.healthy) = true := by
  refine ⟨by decide, by decide, by decide⟩

/-! ## C7: the rolling sample window -/

/-- One append-and-evict step applied to the last `M` elements of a
history equals the last `M` elements of the extended history. -/
theorem roll_lastN (M : Nat) (L : List ℚ) (x : ℚ) :
    (if (lastN M L ++ [x]).length > M
     then (lastN M L ++ [x]).drop ((lastN M L ++ [x]).length - M)
     else lastN M L ++ [x]) = lastN M (L ++ [x]) := by
  unfold lastN
  by_cases hM : L.length < M
  · rw [if_neg]
    · have h0 : L.length - M = 0 := by omega
      have h1 : (L ++ [x]).length - M = 0 := by
        rw [List.length_append]
        simp
        omega
      rw [h0, h1, List.drop_zero, List.drop_zero]
    · rw [List.length_append, List.length_drop]
      simp
      omega
  · rw [if_pos]
    · have hdl : (L.drop (L.length - M)).length = M := by
        rw [List.length_drop]
        omega
      have h2 : (L.drop (L.length - M) ++ [x]).length - M = 1 := by
        rw [List.length_append, hdl]
        simp
      rw [h2]
      cases M with
      | zero =>
        have h3 : L.length - 0 = L.length := by omega
        have h4 : (L ++ [x]).length - 0 = L.length + 1 := by
          rw [List.length_append]
          simp
        rw [h3, h4, List.drop_length]
        have h5 : L.length + 1 = (L ++ [x]).length := by
          rw [List.length_append]
          simp
        rw [h5, List.drop_length]
        rfl
      | succ M' =>
        have hle : 1 ≤ (L.drop (L.length - (M' + 1))).length := by omega
        rw [List.drop_append_of_le_length hle]
        rw [List.drop_drop]
        have h6 : (L ++ [x]).length - (M' + 1) = L.length - (M' + 1) + 1 := by
          rw [List.length_append]
          simp
          omega
        rw [h6]
        rw [List.drop_append_of_le_length (by omega)]
    · rw [List.length_append, List.length_drop]
      simp
      omega

/-- RecordRequest updates the rolling window of exactly its own pair,
expressed against full histories: if every pair's live samples are the
last 10000 entries of some history, the same holds after one more
record, with the event appended to its own pair's history. -/
theorem recordRequest_lastN (m : Metrics) (e : RecEvent)
    (pre : Str → Str → List ℚ) (hmax : m.maxSamples = 10000)
    (hpre : ∀ d b, m.latencySamples d b = lastN 10000 (pre d b)) (d b : Str) :
    (m.recordRequest e.1 e.2.1 e.2.2.1 e.2.2.2).latencySamples d b
      = lastN 10000 (pre d b ++ if d = e.1 ∧ b = e.2.1 then [e.2.2.2] else []) := by
  by_cases hdb : d = e.1 ∧ b = e.2.1
  · simp only [Metrics.recordRequest, if_pos hdb, hmax]
    rw [hpre e.1 e.2.1]
    rw [← hdb.1, ← hdb.2]
    have := roll_lastN 10000 (pre d b) e.2.2.2
    simpa using this
  · simp only [Metrics.recordRequest, if_neg hdb]
    rw [hpre d b, List.append_nil]

/-- Applying a record sequence keeps every pair's live samples equal to
the last 10000 entries of its full recorded history. -/
theorem applyRecords_lastN (evs : List RecEvent) :
    ∀ (m : Metrics) (pre : Str → Str → List ℚ),
    m.maxSamples = 10000 →
    (∀ d b, m.latencySamples d b = lastN 10000 (pre d b)) →
    ∀ d b, (applyRecords m evs).latencySamples d b
        = lastN 10000 (pre d b ++ recordedFor evs d b) := by
  induction evs with
  | nil =>
    intro m pre hmax hpre d b
    have h0 : recordedFor [] d b = [] := rfl
    rw [h0, List.append_nil]
    exact hpre d b
  | cons e evs ih =>
    intro m pre hmax hpre d b
    have hstep : applyRecords m (e :: evs)
        = applyRecords (m.recordRequest e.1 e.2.1 e.2.2.1 e.2.2.2) evs := rfl
    rw [hstep]
    have hmax' : (m.recordRequest e.1 e.2.1 e.2.2.1 e.2.2.2).maxSamples = 10000 := by
      simp only [Metrics.recordRequest]
      exact hmax
    have hrec := ih (m.recordRequest e.1 e.2.1 e.2.2.1 e.2.2.2)
      (fun d b => pre d b ++ if d = e.1 ∧ b = e.2.1 then [e.2.2.2] else []) hmax'
      (recordRequest_lastN m e pre hmax hpre) d b
    rw [hrec, List.append_assoc]
    have htail : (if d = e.1 ∧ b = e.2.1 then [e.2.2.2] else []) ++ recordedFor evs d b
        = recordedFor (e :: evs) d b := by
      unfold recordedFor
      rw [List.filterMap_cons]
      by_cases hdb : d = e.1 ∧ b = e.2.1
      · simp [hdb]
      · simp [hdb]
    rw [htail]

/-- C7: after any sequence of RecordRequest calls on a fresh store, the
sample count of every (domain, backend) pair never exceeds the window
size 10000, and the retained samples are exactly the most recently
recorded durations for that pair, oldest evicted first. -/
theorem rolling_window (evs : List RecEvent) (d b : Str) :
    (applyRecords Metrics.new evs).sampleCount d b ≤ 10000
    ∧ (applyRecords Metrics.new evs).latencySamples d b
        = lastN 10000 (recordedFor evs d b) := by
  have hbase : ∀ d b : Str,
      Metrics.new.latencySamples d b = lastN 10000 ((fun _ _ => ([] : List ℚ)) d b) := by
    intro d b
    show ([] : List ℚ) = lastN 10000 []
    unfold lastN
    rw [List.drop_nil]
  have h := applyRecords_lastN evs Metrics.new (fun _ _ => []) rfl hbase d b
  rw [List.nil_append] at h
  refine ⟨?_, h⟩
  unfold Metrics.sampleCount
  rw [h]
  unfold lastN
  rw [List.length_drop]
  omega

/-! ## C2 and C10: percentile reads -/

theorem length_insertSorted (x : ℚ) (l : List ℚ) :
    (insertSorted x l).length = l.length + 1 := by
  induction l with
  | nil => rfl
  | cons y ys ih =>
    unfold insertSorted
    by_cases h : x ≤ y
    · rw [if_pos h]
      rfl
    · rw [if_neg h]
      simp [ih]

theorem length_sortFloats (l : List ℚ) : (sortFloats l).length = l.length := by
  induction l with
  | nil => rfl
  | cons x xs ih =>
    show (insertSorted x (sortFloats xs)).length = xs.length + 1
    rw [length_insertSorted, ih]

theorem coherent_new : Metrics.new.coherent := fun _ _ => Or.inl rfl

/-- RecordRequest preserves cache coherence: its own entry becomes
absent, every other entry keeps matching its unchanged samples. -/
theorem coherent_record (m : Metrics) (hm : m.coherent) (domain backend : Str)
    (c : Int) (t : ℚ) : (m.recordRequest domain backend c t).coherent := by
  intro d b
  by_cases h : d = domain ∧ b = backend
  · left
    simp only [Metrics.recordRequest]
    rw [if_pos h]
  · rcases hm d b with h1 | h1
    · left
      simp only [Metrics.recordRequest]
      rw [if_neg h]
      exact h1
    · right
      simp only [Metrics.recordRequest]
      rw [if_neg h, if_neg h]
      exact h1

/-- Storing a freshly sorted snapshot for one pair preserves coherence. -/
theorem coherent_after_store (m : Metrics) (hm : m.coherent) (d b : Str) :
    Metrics.coherent { m with sortedCache := (fun d' b' =>
        if d' = d ∧ b' = b then some (sortFloats (m.latencySamples d b))
        else m.sortedCache d' b') } := by
  intro d' b'
  by_cases h : d' = d ∧ b' = b
  · right
    show (if d' = d ∧ b' = b then some (sortFloats (m.latencySamples d b))
          else m.sortedCache d' b') = some (sortFloats (m.latencySamples d' b'))
    rw [if_pos h, h.1, h.2]
  · rcases hm d' b' with h1 | h1
    · left
      show (if d' = d ∧ b' = b then some (sortFloats (m.latencySamples d b))
            else m.sortedCache d' b') = none
      rw [if_neg h]
      exact h1
    · right
      show (if d' = d ∧ b' = b then some (sortFloats (m.latencySamples d b))
            else m.sortedCache d' b') = some (sortFloats (m.latencySamples d' b'))
      rw [if_neg h]
      exact h1

/-- The exclusive path of Percentiles computes every quantile from the
sort of the live samples, touches no samples, and preserves coherence. -/
theorem percentilesSlow_spec (m : Metrics) (hm : m.coherent) (d b : Str) (ps : List ℚ)
    (h0 : ¬ (m.latencySamples d b).length = 0) :
    (m.percentilesSlow d b ps).1 = ps.map (quantAt (sortFloats (m.latencySamples d b)))
    ∧ (m.percentilesSlow d b ps).2.latencySamples = m.latencySamples
    ∧ (m.percentilesSlow d b ps).2.coherent := by
  cases hc : m.sortedCache d b with
  | none =>
    have hred : m.percentilesSlow d b ps
        = (ps.map (quantAt (sortFloats (m.latencySamples d b))),
           { m with sortedCache := (fun d' b' =>
               if d' = d ∧ b' = b then some (sortFloats (m.latencySamples d b))
               else m.sortedCache d' b') }) := by
      simp only [Metrics.percentilesSlow, if_neg h0, hc]
    rw [hred]
    exact ⟨rfl, rfl, coherent_after_store m hm d b⟩
  | some s =>
    rcases hm d b with h1 | h1
    · rw [hc] at h1
      exact absurd h1 (by simp)
    · rw [hc] at h1
      injection h1 with hs
      by_cases hl : s.length = (m.latencySamples d b).length
      · have hred : m.percentilesSlow d b ps = (ps.map (quantAt s), m) := by
          simp only [Metrics.percentilesSlow, if_neg h0, hc, if_pos hl]
        rw [hred, hs]
        exact ⟨rfl, rfl, hm⟩
      · have hred : m.percentilesSlow d b ps
            = (ps.map (quantAt (sortFloats (m.latencySamples d b))),
               { m with sortedCache := (fun d' b' =>
                   if d' = d ∧ b' = b then some (sortFloats (m.latencySamples d b))
                   else m.sortedCache d' b') }) := by
          simp only [Metrics.percentilesSlow, if_neg h0, hc, if_neg hl]
        rw [hred]
        exact ⟨rfl, rfl, coherent_after_store m hm d b⟩

/-- On a coherent store, Percentiles returns exactly the quantiles of the
freshly sorted live samples, never changes the samples, and preserves
coherence. -/
theorem percentiles_spec (m : Metrics) (hm : m.coherent) (d b : Str) (ps : List ℚ) :
    (m.percentiles d b ps).1 = m.percentilesFromLive d b ps
    ∧ (m.percentiles d b ps).2.latencySamples = m.latencySamples
    ∧ (m.percentiles d b ps).2.coherent := by
  by_cases h0 : (m.latencySamples d b).length = 0
  · have hred : m.percentiles d b ps = (ps.map (fun _ => 0), m) := by
      simp only [Metrics.percentiles, if_pos h0]
    have hred2 : m.percentilesFromLive d b ps = ps.map (fun _ => 0) := by
      simp only [Metrics.percentilesFromLive, if_pos h0]
    rw [hred, hred2]
    exact ⟨rfl, rfl, hm⟩
  · have hlive : m.percentilesFromLive d b ps
        = ps.map (quantAt (sortFloats (m.latencySamples d b))) := by
      simp only [Metrics.percentilesFromLive, if_neg h0]
    cases hc : m.sortedCache d b with
    | none =>
      have hred : m.percentiles d b ps = m.percentilesSlow d b ps := by
        simp only [Metrics.percentiles, if_neg h0, hc]
      obtain ⟨hs1, hs2, hs3⟩ := percentilesSlow_spec m hm d b ps h0
      rw [hred, hlive]
      exact ⟨hs1, hs2, hs3⟩
    | some s =>
      rcases hm d b with h1 | h1
      · rw [hc] at h1
        exact absurd h1 (by simp)
      · rw [hc] at h1
        injection h1 with hs
        by_cases hl : s.length = (m.latencySamples d b).length
        · have hred : m.percentiles d b ps = (ps.map (quantAt s), m) := by
            simp only [Metrics.percentiles, if_neg h0, hc, if_pos hl]
          rw [hred, hlive, hs]
          exact ⟨rfl, rfl, hm⟩
        · have hred : m.percentiles d b ps = m.percentilesSlow d b ps := by
            simp only [Metrics.percentiles, if_neg h0, hc, if_neg hl]
          obtain ⟨hs1, hs2, hs3⟩ := percentilesSlow_spec m hm d b ps h0
          rw [hred, hlive]
          exact ⟨hs1, hs2, hs3⟩

/-- Every reachable metrics store is cache-coherent. -/
theorem reachable_coherent {m : Metrics} (hm : m.Reachable) : m.coherent := by
  induction hm with
  | new => exact coherent_new
  | record d b c t _ ih => exact coherent_record _ ih d b c t
  | scrape d b ps _ ih => exact (percentiles_spec _ ih d b ps).2.2

/-- C10: on every reachable store, Percentiles returns exactly what a
fresh copy+sort of the live samples yields, whatever the sorted cache
holds; Percentile is the single-element read of Percentiles; and an
immediately repeated read returns the same values. -/
theorem percentiles_cache_transparent (m : Metrics) (d b : Str) (ps : List ℚ) (p : ℚ)
    (hm : m.Reachable) :
    (m.percentiles d b ps).1 = m.percentilesFromLive d b ps
    ∧ (m.percentile d b p).1 = ((m.percentiles d b [p]).1).getD 0 0
    ∧ ((m.percentiles d b ps).2.percentiles d b ps).1 = (m.percentiles d b ps).1 := by
  have hcoh := reachable_coherent hm
  obtain ⟨h1, h2, h3⟩ := percentiles_spec m hcoh d b ps
  refine ⟨h1, rfl, ?_⟩
  obtain ⟨g1, _, _⟩ := percentiles_spec _ h3 d b ps
  rw [g1, h1]
  unfold Metrics.percentilesFromLive
  rw [h2]

def scrapeDom : Str := ("web.example.com").toList

def scrapeBack : Str := ("10.0.0.7:8001").toList

def scrapeStore : Metrics :=
  (Metrics.new.recordRequest scrapeDom scrapeBack 200 (qv 3 1)).recordRequest
    scrapeDom scrapeBack 200 (qv 1 1)

/-- Witness for C10 on a concrete reachable store with two samples. -/
theorem percentiles_cache_transparent_witness :
    scrapeStore.Reachable
    ∧ ((scrapeStore.percentiles scrapeDom scrapeBack [qv 1 2, qv 99 100]).1
        = scrapeStore.percentilesFromLive scrapeDom scrapeBack [qv 1 2, qv 99 100]
      ∧ (scrapeStore.percentile scrapeDom scrapeBack (qv 1 2)).1
          = ((scrapeStore.percentiles scrapeDom scrapeBack [qv 1 2]).1).getD 0 0
      ∧ ((scrapeStore.percentiles scrapeDom scrapeBack [qv 1 2, qv 99 100]).2.percentiles
            scrapeDom scrapeBack [qv 1 2, qv 99 100]).1
          = (scrapeStore.percentiles scrapeDom scrapeBack [qv 1 2, qv 99 100]).1) :=
  ⟨Metrics.Reachable.record scrapeDom scrapeBack 200 (qv 1 1)
     (Metrics.Reachable.record scrapeDom scrapeBack 200 (qv 3 1) Metrics.Reachable.new),
   percentiles_cache_transparent scrapeStore scrapeDom scrapeBack [qv 1 2, qv 99 100]
     (qv 1 2)
     (Metrics.Reachable.record scrapeDom scrapeBack 200 (qv 1 1)
       (Metrics.Reachable.record scrapeDom scrapeBack 200 (qv 3 1) Metrics.Reachable.new))⟩

/-- C2 (amended): with n > 0 samples and a quantile q in [0,1],
Percentiles returns the element of the sorted snapshot at index
`int((n-1)·q)` — Go's float-to-int conversion truncates (floor on this
non-negative range), it does not round to nearest.  The claimed
`round((n-1)·q)` index is refuted by the counterexample. -/
theorem percentiles_floor_index (m : Metrics) (d b : Str) (q : ℚ) (hm : m.Reachable)
    (hn : (m.latencySamples d b).length ≠ 0) (hq0 : 0 ≤ q) (hq1 : q ≤ 1) :
    (m.percentiles d b [q]).1
      = [(sortFloats (m.latencySamples d b)).getD
          (Int.tdiv (((m.latencySamples d b).length - 1 : Int) * q.num)
            (q.den : Int)).toNat 0] := by
  have hcoh := reachable_coherent hm
  rw [(percentiles_spec m hcoh d b [q]).1]
  unfold Metrics.percentilesFromLive
  rw [if_neg hn]
  rw [List.map_cons, List.map_nil]
  have hnum : 0 ≤ q.num := Rat.num_nonneg.mpr hq0
  have hden : 0 < (q.den : Int) := by
    have hz := q.den_nz
    omega
  have hnn : (0 : Int) ≤ ((m.latencySamples d b).length - 1 : Int) := by
    have : (m.latencySamples d b).length ≠ 0 := hn
    omega
  have hnumden : q.num ≤ (q.den : Int) := by
    have hle := Rat.le_def.mp hq1
    rw [Rat.num_one, Rat.den_one] at hle
    simpa using hle
  have h1 : 0 ≤ Int.tdiv (((m.latencySamples d b).length - 1 : Int) * q.num)
      (q.den : Int) := Int.tdiv_nonneg (mul_nonneg hnn hnum) (le_of_lt hden)
  have h2 : Int.tdiv (((m.latencySamples d b).length - 1 : Int) * q.num) (q.den : Int)
      ≤ ((m.latencySamples d b).length - 1 : Int) := by
    rw [Int.tdiv_eq_ediv (mul_nonneg hnn hnum) (le_of_lt hden)]
    calc (((m.latencySamples d b).length - 1 : Int) * q.num) / (q.den : Int)
        ≤ (((m.latencySamples d b).length - 1 : Int) * (q.den : Int)) / (q.den : Int) :=
          Int.ediv_le_ediv hden (mul_le_mul_of_nonneg_left hnumden hnn)
      _ = ((m.latencySamples d b).length - 1 : Int) :=
          Int.mul_ediv_cancel _ (by omega)
  simp only [quantAt, quantIdx, length_sortFloats]
  rw [if_neg (by omega :
    ¬ Int.tdiv (((m.latencySamples d b).length - 1 : Int) * q.num) (q.den : Int) < 0)]
  rw [if_neg (by omega :
    ¬ ((m.latencySamples d b).length : Int)
        ≤ Int.tdiv (((m.latencySamples d b).length - 1 : Int) * q.num) (q.den : Int))]

def floorDom : Str := ("shop.example.com").toList

def floorBack : Str := ("10.0.0.8:8001").toList

def floorStore : Metrics :=
  (Metrics.new.recordRequest floorDom floorBack 200 (qv 7 1)).recordRequest
    floorDom floorBack 200 (qv 5 1)

/-- Witness for C2 (amended) at two samples and q = 1/2. -/
theorem percentiles_floor_index_witness :
    floorStore.Reachable
    ∧ (floorStore.latencySamples floorDom floorBack).length ≠ 0
    ∧ (0 : ℚ) ≤ qv 1 2
    ∧ qv 1 2 ≤ 1
    ∧ (floorStore.percentiles floorDom floorBack [qv 1 2]).1
        = [(sortFloats (floorStore.latencySamples floorDom floorBack)).getD
            (Int.tdiv (((floorStore.latencySamples floorDom floorBack).length - 1 : Int)
              * (qv 1 2).num) ((qv 1 2).den : Int)).toNat 0] :=
  ⟨Metrics.Reachable.record floorDom floorBack 200 (qv 5 1)
     (Metrics.Reachable.record floorDom floorBack 200 (qv 7 1) Metrics.Reachable.new),
   by decide, by decide, by decide,
   percentiles_floor_index floorStore floorDom floorBack (qv 1 2)
     (Metrics.Reachable.record floorDom floorBack 200 (qv 5 1)
       (Metrics.Reachable.record floorDom floorBack 200 (qv 7 1) Metrics.Reachable.new))
     (by decide) (by decide) (by decide)⟩

/-- The claim's nearest-rank index `round((n-1)·q)`, computed exactly on
rationals: `round(x) = floor(x + 1/2)`, i.e. `fdiv(2·a·num + den, 2·den)`
for `x = a·num/den`. -/
def claimRoundIdx (n : Nat) (q : ℚ) : Int :=
  Int.fdiv (2 * ((n - 1 : Int) * q.num) + q.den) (2 * q.den)

def truncDom : Str := ("img.example.com").toList

def truncBack : Str := ("10.0.0.9:8001").toList

def truncStore : Metrics :=
  (Metrics.new.recordRequest truncDom truncBack 200 (qv 2 1)).recordRequest
    truncDom truncBack 200 (qv 1 1)

/-- Counterexample to C2 as stated: with the two samples 1 and 2 and
q = 3/4 (exactly representable in binary, so the Go float computation is
exact), the code computes `int(1 * 0.75) = 0` and returns the smaller
sample, while the claimed index `round((n-1)·q) = round(0.75) = 1`
selects the larger one. -/
theorem percentiles_floor_index_counterexample :
    (truncStore.percentiles truncDom truncBack [qv 3 4]).1 = [qv 1 1]
    ∧ (sortFloats (truncStore.latencySamples truncDom truncBack)).getD
        (claimRoundIdx (truncStore.latencySamples truncDom truncBack).length
          (qv 3 4)).toNat 0 = qv 2 1
    ∧ (truncStore.percentiles truncDom truncBack [qv 3 4]).1
        ≠ [(sortFloats (truncStore.latencySamples truncDom truncBack)).getD
            (claimRoundIdx (truncStore.latencySamples truncDom truncBack).length
              (qv 3 4)).toNat 0] := by
  refine ⟨by decide, by decide, by decide⟩

/-! ## C6: what the route rebuild can emit -/

/-- Provenance of an emitted (pattern, backend) pair: it comes from a
relevant job with a non-empty URL-prefix tag equal to the pattern, a
cached agent with a known hostname, and a `running` task with a non-zero
resolved port. -/
theorem emitBackends_mem {w : WState} {p : Str} {bk : Backend}
    (h : (p, bk) ∈ emitBackends w) :
    ∃ jobName job agentID tasks task,
      jobName ∈ w.relevant
      ∧ w.jobs.lookup jobName = some job
      ∧ tagsGet job.tags urlTagKey = p
      ∧ p ≠ []
      ∧ (agentID, tasks) ∈ (w.tasks.lookup jobName).getD []
      ∧ task ∈ tasks
      ∧ task.state = runningState
      ∧ taskPort task (tagsGet job.tags portTagKey) ≠ 0
      ∧ (w.agentHosts.lookup agentID).getD [] ≠ []
      ∧ bk = backendFor ((w.agentHosts.lookup agentID).getD [])
          (taskPort task (tagsGet job.tags portTagKey)) := by
  unfold emitBackends at h
  rw [List.mem_flatMap] at h
  obtain ⟨jobName, hjn, h⟩ := h
  cases hjob : w.jobs.lookup jobName with
  | none =>
    simp only [hjob] at h
    exact absurd h (by simp)
  | some job =>
    simp only [hjob] at h
    by_cases hp : tagsGet job.tags urlTagKey = []
    · rw [if_pos hp] at h
      exact absurd h (by simp)
    · rw [if_neg hp] at h
      rw [List.mem_flatMap] at h
      obtain ⟨entry, hentry, h⟩ := h
      by_cases hhost : (w.agentHosts.lookup entry.1).getD [] = []
      · rw [if_pos hhost] at h
        exact absurd h (by simp)
      · rw [if_neg hhost] at h
        rw [List.mem_flatMap] at h
        obtain ⟨task, htask, h⟩ := h
        by_cases hrun : task.state ≠ runningState
        · rw [if_pos hrun] at h
          exact absurd h (by simp)
        · rw [if_neg hrun] at h
          by_cases hport : taskPort task (tagsGet job.tags portTagKey) = 0
          · rw [if_pos hport] at h
            exact absurd h (by simp)
          · rw [if_neg hport] at h
            rw [List.mem_singleton] at h
            rw [Prod.mk.injEq] at h
            obtain ⟨hfst, hsnd⟩ := h
            refine ⟨jobName, job, entry.1, entry.2, task, hjn, hjob, hfst.symm, ?_, hentry,
              htask, not_not.mp hrun, hport, hhost, hsnd⟩
            rw [hfst]
            exact hp

/-- Every route stored by buildRoutes carries its own pattern, a
non-empty backends list, and only backends emitted for that pattern. -/
theorem buildRoutes_mem {w : WState} {p : Str} {r : Route}
    (h : (p, r) ∈ buildRoutes w) :
    r.pattern = p ∧ r.backends ≠ [] ∧ ∀ bk ∈ r.backends, (p, bk) ∈ emitBackends w := by
  unfold buildRoutes at h
  rw [List.mem_map] at h
  obtain ⟨p0, hp0, heq⟩ := h
  rw [Prod.mk.injEq] at heq
  obtain ⟨hpp, hrr⟩ := heq
  subst hpp
  subst hrr
  rw [List.mem_dedup, List.mem_map] at hp0
  obtain ⟨pair0, hpair0, hfst0⟩ := hp0
  refine ⟨rfl, ?_, ?_⟩
  · apply List.ne_nil_of_mem (a := pair0.2)
    rw [List.mem_filterMap]
    refine ⟨pair0, hpair0, ?_⟩
    rw [if_pos hfst0]
  · intro bk hbk
    rw [List.mem_filterMap] at hbk
    obtain ⟨q, hq, hqe⟩ := hbk
    by_cases hq1 : q.1 = p0
    · rw [if_pos hq1] at hqe
      injection hqe with hqe
      have : (p0, bk) = q := by
        rw [← hq1, ← hqe]
      rw [this]
      exact hq
    · rw [if_neg hq1] at hqe
      exact absurd hqe (by simp)

/-- C6 (amended): on every cache state whose `relevant` set is consistent
with the configured tag filter (every relevant name maps to a job that
passes the filter and carries a non-empty URL-prefix tag — the state
every full sync with duplicate-free job names produces), the rebuilt
route map has no empty backends list, and every backend is contributed by
a filter-passing job with a non-empty URL-prefix tag equal to the route's
pattern, through a task in `running` state with a resolvable non-zero
port.  Without the consistency hypothesis the tag-filter half is false —
buildRoutes itself never consults the filter (see the counterexample). -/
theorem buildRoutes_filters (w : WState)
    (hrel : ∀ jn ∈ w.relevant, ∃ job, w.jobs.lookup jn = some job
        ∧ jobMatchesFilter w.tagFilter job = true ∧ jobHasURLPrefixTag job = true) :
    ∀ p r, (p, r) ∈ buildRoutes w →
      r.backends ≠ []
      ∧ ∀ bk ∈ r.backends, ∃ jobName job task,
          jobName ∈ w.relevant
          ∧ w.jobs.lookup jobName = some job
          ∧ jobMatchesFilter w.tagFilter job = true
          ∧ jobHasURLPrefixTag job = true
          ∧ tagsGet job.tags urlTagKey = p
          ∧ p ≠ []
          ∧ task.state = runningState
          ∧ taskPort task (tagsGet job.tags portTagKey) ≠ 0
          ∧ ∃ agentID tasks, (agentID, tasks) ∈ (w.tasks.lookup jobName).getD []
              ∧ task ∈ tasks
              ∧ bk = backendFor ((w.agentHosts.lookup agentID).getD [])
                  (taskPort task (tagsGet job.tags portTagKey)) := by
  intro p r hpr
  obtain ⟨_, hne, hall⟩ := buildRoutes_mem hpr
  refine ⟨hne, ?_⟩
  intro bk hbk
  obtain ⟨jobName, job, agentID, tasks, task, hjn, hjob, hpp, hpne, hmemA, hmemT,
    hrun, hport, _, hbke⟩ := emitBackends_mem (hall bk hbk)
  obtain ⟨job', hjob', hfil, hpre⟩ := hrel jobName hjn
  rw [hjob] at hjob'
  injection hjob' with hje
  subst hje
  exact ⟨jobName, job, task, hjn, hjob, hfil, hpre, hpp, hpne, hrun, hport,
    agentID, tasks, hmemA, hmemT, hbke⟩

def goodJob : Job :=
  { id := ("j1").toList
    name := ("payments").toList
    tags := [(("lb").toList, ("edge").toList),
             (urlTagKey, ("pay.example.com").toList)] }

def goodCache : WState :=
  { tagFilter := ("lb:edge").toList
    agentHosts := [(("agent1").toList, ("node1").toList)]
    jobs := [(("payments").toList, goodJob)]
    relevant := [("payments").toList]
    tasks := [(("payments").toList,
      [(("agent1").toList,
        [{ id := ("t1").toList, jobName := ("payments").toList,
           state := ("running").toList, ports := [(("http").toList, 8080)] },
         { id := ("t2").toList, jobName := ("payments").toList,
           state := ("pending").toList, ports := [(("http").toList, 8081)] }])])]
    routes := [] }

def goodRoute : Route :=
  { pattern := ("pay.example.com").toList
    backends := [{ address := ("node1:8080").toList, healthy := true }]
    next := 0 }

/-- Witness for C6 (amended) on a concrete consistent cache: one running
and one pending task yield exactly one route with exactly the running
task's backend, and the provenance conclusion holds for it. -/
theorem buildRoutes_filters_witness :
    buildRoutes goodCache = [((("pay.example.com").toList), goodRoute)]
    ∧ (goodRoute.backends ≠ []
       ∧ ∀ bk ∈ goodRoute.backends, ∃ jobName job task,
          jobName ∈ goodCache.relevant
          ∧ goodCache.jobs.lookup jobName = some job
          ∧ jobMatchesFilter goodCache.tagFilter job = true
          ∧ jobHasURLPrefixTag job = true
          ∧ tagsGet job.tags urlTagKey = ("pay.example.com").toList
          ∧ (("pay.example.com").toList : Str) ≠ []
          ∧ task.state = runningState
          ∧ taskPort task (tagsGet job.tags portTagKey) ≠ 0
          ∧ ∃ agentID tasks, (agentID, tasks) ∈ (goodCache.tasks.lookup jobName).getD []
              ∧ task ∈ tasks
              ∧ bk = backendFor ((goodCache.agentHosts.lookup agentID).getD [])
                  (taskPort task (tagsGet job.tags portTagKey))) :=
  ⟨by decide,
   buildRoutes_filters goodCache
     (by
       intro jn hjn
       have hj : jn = ("payments").toList := by
         simpa [goodCache] using hjn
       subst hj
       exact ⟨goodJob, by decide, by decide, by decide⟩)
     (("pay.example.com").toList) goodRoute (by decide)⟩

def badJob : Job :=
  { id := ("j9").toList
    name := ("legacy").toList
    tags := [(("lb").toList, ("other").toList),
             (urlTagKey, ("old.example.com").toList)] }

def badRoute : Route :=
  { pattern := ("old.example.com").toList
    backends := [{ address := ("node1:80").toList, healthy := true }]
    next := 0 }

def badCache : WState :=
  { tagFilter := ("lb:edge").toList
    agentHosts := [(("agent1").toList, ("node1").toList)]
    jobs := [(("legacy").toList, badJob)]
    relevant := [("legacy").toList]
    tasks := [(("legacy").toList,
      [(("agent1").toList,
        [{ id := ("t9").toList, jobName := ("legacy").toList,
           state := ("running").toList, ports := [(("http").toList, 80)] }])])]
    routes := [] }

/-- Counterexample to C6 as stated: a watcher cache state in which the
`relevant` set names a job that fails the configured tag filter (such a
state is reachable when a full sync fetches two jobs with the same name,
the first qualifying and the second not: `relevant` keeps the name while
`jobs` keeps the second job).  buildRoutes never consults the filter, so
the filter-failing job contributes a route and a backend. -/
theorem buildRoutes_filters_counterexample :
    jobMatchesFilter badCache.tagFilter badJob = false
    ∧ badCache.relevant = [("legacy").toList]
    ∧ badCache.jobs.lookup (("legacy").toList) = some badJob
    ∧ buildRoutes badCache = [((("old.example.com").toList), badRoute)] := by
  refine ⟨by decide, by decide, by decide, by decide⟩

end EasyLB
